import Mathlib

/-!
Verification of the AI OCR Formatter plugin core (`src/main.ts`) against its
natural-language specification.

The development shallowly embeds the plugin's core functions:

* `cleanLatexDelimiters` — the LaTeX delimiter canonicalizer (`main.ts:382-400`),
  including the JavaScript regex semantics of the two `String.replace` calls
  (global scan, non-greedy close search, `.` not matching line terminators in
  the inline rewrite, `\s*` matching them).
* the response normalizer inside `formatText` (`main.ts:320-349`): think-tag
  stripping, trim, code-fence stripping, and the JSON-parse/validate branch.
  The external `JSON.parse` + zod validation step is an opaque platform call
  and is therefore a parameter `parse : String → Option FormattedResponse`.
* `performMistralOCR` (`main.ts:144-230`): the auth gate, the three remote
  calls (modelled by an environment of their outcomes plus a trace of issued
  calls), the page join, and the image-payload extraction.
* the empty-result gate of `processImage` (`main.ts:362`).
* `saveOCRImages` (`main.ts:233-269`): the vault collaborator is a path→bytes
  association list plus a per-path failure oracle covering any error thrown
  while decoding/writing one image (the code catches these per image).
* the model-selection logic of `formatText` (`main.ts:275-284`), with
  JavaScript truthiness of `||` made explicit (empty string is falsy).

Strings are handled through their `List Char` data; recursions that are not
structural in the source scan are given explicit fuel (always called with
fuel = list length, which the lemmas show is sufficient), so everything
evaluates by `decide`/`rfl`.
-/

namespace AIOcr

/-! ## Character classes (JavaScript semantics) -/

/-- JavaScript `\s` / `String.prototype.trim` whitespace set:
space, tab, LF, VT, FF, CR, NBSP, U+1680, U+2000–U+200A, U+2028, U+2029,
U+202F, U+205F, U+3000, U+FEFF. -/
def isJsWhitespace (c : Char) : Bool :=
  c = ' ' || c = '\t' || c = '\n' || c.toNat = 0x0B || c.toNat = 0x0C || c = '\r' ||
  c.toNat = 0xA0 || c.toNat = 0x1680 || (0x2000 ≤ c.toNat && c.toNat ≤ 0x200A) ||
  c.toNat = 0x2028 || c.toNat = 0x2029 || c.toNat = 0x202F || c.toNat = 0x205F ||
  c.toNat = 0x3000 || c.toNat = 0xFEFF

/-- Line terminators, the characters JavaScript `.` (without the `s` flag)
does not match: LF, CR, U+2028, U+2029. -/
def isLineTerminator (c : Char) : Bool :=
  c = '\n' || c = '\r' || c.toNat = 0x2028 || c.toNat = 0x2029

/-- The two whitespace-scrub replaces of `cleanLatexDelimiters`
(`main.ts:386-387`), fused pointwise: U+00A0 and U+2000–U+200B, U+202F,
U+205F, U+3000 become an ordinary space. -/
def scrubChar (c : Char) : Char :=
  if c.toNat = 0xA0 then ' '
  else if (0x2000 ≤ c.toNat && c.toNat ≤ 0x200B) || c.toNat = 0x202F ||
      c.toNat = 0x205F || c.toNat = 0x3000 then ' '
  else c

/-- JavaScript `String.prototype.trim` on a char list. -/
def jsTrimL (l : List Char) : List Char :=
  ((l.dropWhile isJsWhitespace).reverse.dropWhile isJsWhitespace).reverse

/-- String-level trim (used for `markdown.trim()` in `performMistralOCR`). -/
def jsTrimS (s : String) : String := ⟨jsTrimL s.data⟩

/-! ## The two regex rewrites of `cleanLatexDelimiters` -/

/-- Scan for the first occurrence of the two-character sequence
backslash-`cl` (the regex fragment `\\\]` resp. `\\\)`); on success return
the characters before it and the characters after it.  This is where the
non-greedy `[\s\S]*?` / `\s*(.*?)\s*` matching ends: at the first closing
delimiter after the opener. -/
def findClose (cl : Char) : List Char → Option (List Char × List Char)
  | [] => none
  | [_] => none
  | c₁ :: c₂ :: rest =>
    if c₁ = '\\' ∧ c₂ = cl then some ([], rest)
    else (findClose cl (c₂ :: rest)).map fun p => (c₁ :: p.1, p.2)

/-- Fueled scanner for
`text.replace(/\\\[\s*([\s\S]*?)\s*\\\]/g, ($$\n<trim>\n$$))`
(`main.ts:390-393`).  At each position: if the next two characters are
`\[` and a later `\]` exists, emit the replacement and continue after the
close; otherwise advance one character (a failed opener cannot be part of a
later match starting at the `[`). -/
def replaceBlocksF : Nat → List Char → List Char
  | 0, l => l
  | _+1, [] => []
  | _+1, [c] => [c]
  | f+1, c₁ :: c₂ :: rest =>
    if c₁ = '\\' ∧ c₂ = '[' then
      match findClose ']' rest with
      | some (inner, rest') =>
        '$' :: '$' :: '\n' :: (jsTrimL inner ++ '\n' :: '$' :: '$' :: replaceBlocksF f rest')
      | none => c₁ :: replaceBlocksF f (c₂ :: rest)
    else c₁ :: replaceBlocksF f (c₂ :: rest)

def replaceBlocks (l : List Char) : List Char := replaceBlocksF l.length l

/-- Fueled scanner for
`text.replace(/\\\(\s*(.*?)\s*\\\)/g, ($<trim>$))` (`main.ts:395-398`).
Because `.` does not match line terminators while the surrounding `\s*`
does, a candidate `\( ... \)` pair matches exactly when its inner content,
after trimming the whitespace runs at both ends, contains no line
terminator; otherwise no match starts at this opener (any longer candidate
still contains that inner line terminator) and the scan advances one
character. -/
def replaceInlineF : Nat → List Char → List Char
  | 0, l => l
  | _+1, [] => []
  | _+1, [c] => [c]
  | f+1, c₁ :: c₂ :: rest =>
    if c₁ = '\\' ∧ c₂ = '(' then
      match findClose ')' rest with
      | some (inner, rest') =>
        if (jsTrimL inner).any isLineTerminator then c₁ :: replaceInlineF f (c₂ :: rest)
        else '$' :: (jsTrimL inner ++ '$' :: replaceInlineF f rest')
      | none => c₁ :: replaceInlineF f (c₂ :: rest)
    else c₁ :: replaceInlineF f (c₂ :: rest)

def replaceInline (l : List Char) : List Char := replaceInlineF l.length l

/-- The function `cleanLatexDelimiters` (`main.ts:382-400`): falsy short-circuit, the two
whitespace scrubs, then the block rewrite, then the inline rewrite. -/
def cleanLatexDelimiters (text : String) : String :=
  if text = "" then text
  else ⟨replaceInline (replaceBlocks (text.data.map scrubChar))⟩

/-! ## Response normalizer (post-response handling of `formatText`) -/

/-- Match `pat` case-insensitively at the head of `l` (JavaScript `i` flag);
on success return the remainder. -/
def matchCI : List Char → List Char → Option (List Char)
  | [], l => some l
  | _ :: _, [] => none
  | p :: ps, c :: cs => if c.toLower = p.toLower then matchCI ps cs else none

/-- Scan for the first case-insensitive occurrence of `</think>`; return the
remainder after it (where the non-greedy `[\s\S]*?` match ends). -/
def findThinkClose : List Char → Option (List Char)
  | [] => none
  | c :: cs =>
    match matchCI "</think>".data (c :: cs) with
    | some rest => some rest
    | none => findThinkClose cs

/-- Fueled scanner for
`content.replace(/<think>[\s\S]*?<\/think>/gi, "")` (`main.ts:323`). -/
def stripThinkF : Nat → List Char → List Char
  | 0, l => l
  | _+1, [] => []
  | f+1, c :: cs =>
    match matchCI "<think>".data (c :: cs) with
    | some rest =>
      match findThinkClose rest with
      | some rest' => stripThinkF f rest'
      | none => c :: stripThinkF f cs
    | none => c :: stripThinkF f cs

def stripThink (l : List Char) : List Char := stripThinkF l.length l

/-- Whether `pat` matches at the head of `l` exactly (case-sensitive). -/
def headMatch : List Char → List Char → Bool
  | [], _ => true
  | _ :: _, [] => false
  | p :: ps, c :: cs => p = c && headMatch ps cs

/-- The strip `content.replace(/^```json\s*/, "")` (`main.ts:325`). -/
def stripLeadJsonFence (l : List Char) : List Char :=
  if headMatch "```json".data l then (l.drop 7).dropWhile isJsWhitespace else l

/-- The strip `content.replace(/^```/, "")` (`main.ts:325`). -/
def stripLeadFence (l : List Char) : List Char :=
  if headMatch "```".data l then l.drop 3 else l

/-- The strip `content.replace(/```$/, "")` (`main.ts:325`); without the `m` flag,
`$` anchors only at the very end of the string. -/
def stripTrailFence (l : List Char) : List Char :=
  if headMatch "```".data.reverse l.reverse then (l.reverse.drop 3).reverse else l

/-- The cleaned completion text: think-tags stripped, trimmed, then the three
anchored fence strips in source order (`main.ts:321-325`). -/
def cleanContent (raw : String) : String :=
  ⟨stripTrailFence (stripLeadFence (stripLeadJsonFence (jsTrimL (stripThink raw.data))))⟩

/-- The zod `FormattedResponseSchema` shape (`main.ts:52-55`): required
string `formatted_markdown`, optional number `confidence_score`. -/
structure FormattedResponse where
  formatted_markdown : String
  confidence_score : Option Rat

/-- Post-response handling of `formatText` (`main.ts:320-349`).  The external
`JSON.parse` + `FormattedResponseSchema.parse` step is passed in as `parse`
(returning `none` when parsing or schema validation fails).  On success the
`formatted_markdown` field is canonicalized; on failure the cleaned content
is returned as-is (`main.ts:348`). -/
def formatTextNormalize (parse : String → Option FormattedResponse) (raw : String) : String :=
  let content := cleanContent raw
  match parse content with
  | some r => cleanLatexDelimiters r.formatted_markdown
  | none => content

/-- A parse outcome standing for `JSON.parse` throwing (the input below is
not valid JSON, so the real `JSON.parse` rejects it). -/
def jsonParseFailure : String → Option FormattedResponse := fun _ => none

/-! ## OCR extraction (`performMistralOCR`) -/

/-- One entry of `page.images` in the OCR response: an id and an optional
`imageBase64` payload. -/
structure OCRImage where
  id : String
  imageBase64 : Option String
deriving DecidableEq

/-- One page of the OCR response: optional markdown, optional image list. -/
structure OCRPage where
  markdown : Option String
  images : Option (List OCRImage)
deriving DecidableEq

/-- The `OCRResult` interface (`main.ts:46-49`); the id→base64 map is an
insertion-ordered association list, as a JavaScript object is. -/
structure OCRResult where
  markdown : String
  images : List (String × String)
deriving DecidableEq

/-- JavaScript object assignment `m[k] = v`: overwrite in place if the key
exists, append otherwise. -/
def assocSet : List (String × String) → String → String → List (String × String)
  | [], k, v => [(k, v)]
  | p :: r, k, v => if p.1 = k then (k, v) :: r else p :: assocSet r k v

def assocFind : List (String × String) → String → Option String
  | [], _ => none
  | p :: r, k => if p.1 = k then some p.2 else assocFind r k

/-- Substring after the first `,`, if any (`split(",")` then index 1 exists). -/
def afterComma : List Char → Option (List Char)
  | [] => none
  | c :: r => if c = ',' then some r else afterComma r

def upToComma : List Char → List Char
  | [] => []
  | c :: r => if c = ',' then [] else c :: upToComma r

/-- JavaScript `s.split(",")[1]`, with the `undefined` of a comma-less string
collapsed to `""` (both are falsy at the only use site). -/
def jsSplitSecond (l : List Char) : List Char :=
  match afterComma l with
  | none => []
  | some r => upToComma r

/-- The base64 payload actually considered for one image
(`main.ts:211-215`): `image.imageBase64 || ""`, then the data-URL prefix
strip via `split(",")[1]` when it starts with `data:`. -/
def effectivePayload (imageBase64 : Option String) : List Char :=
  let b := (imageBase64.getD "").data
  if headMatch "data:".data b then jsSplitSecond b else b

/-- Processing of one image of a page (`main.ts:209-219`): store the
effective payload under the image's id only when it is non-empty. -/
def addImage (images : List (String × String)) (im : OCRImage) : List (String × String) :=
  let b := effectivePayload im.imageBase64
  if b = [] then images else assocSet images im.id ⟨b⟩

/-- The image part of one iteration of the page loop (`main.ts:208-220`):
guarded by `extractImages && page.images && page.images.length > 0`. -/
def pageImagesStep (extractImages : Bool) (images : List (String × String))
    (page : OCRPage) : List (String × String) :=
  if extractImages && !(page.images.getD []).isEmpty then
    (page.images.getD []).foldl addImage images
  else images

/-- One iteration of `ocrResponse.pages.forEach` (`main.ts:203-221`),
carrying the accumulated markdown, the image map and the page index. -/
def pagesFoldStep (extractImages : Bool) (acc : String × List (String × String) × Nat)
    (page : OCRPage) : String × List (String × String) × Nat :=
  (acc.1 ++ (if 0 < acc.2.2 then "\n\n---\n\n" else "") ++ (page.markdown.getD ""),
   pageImagesStep extractImages acc.2.1 page, acc.2.2 + 1)

/-- The whole page loop: concatenated (untrimmed) markdown and image map. -/
def pagesFold (extractImages : Bool) (pages : List OCRPage) :
    String × List (String × String) :=
  let r := pages.foldl (pagesFoldStep extractImages) ("", [], 0)
  (r.1, r.2.1)

/-- The parse stage result of `performMistralOCR` (`main.ts:198-224`):
markdown trimmed at the end. -/
def extractResult (extractImages : Bool) (pages : List OCRPage) : OCRResult :=
  { markdown := jsTrimS (pagesFold extractImages pages).1
    images := (pagesFold extractImages pages).2 }

/-- The network operations `performMistralOCR` can issue, in order:
`client.files.upload`, `client.files.getSignedUrl`, `client.ocr.process`. -/
inductive NetOp
  | upload
  | signedUrl
  | process
deriving DecidableEq

/-- Outcomes of the three remote calls, fixed up front: the upload result
(`error` = the SDK call rejecting, the string being the file id otherwise,
with `""` standing for a missing/falsy id), the signed-URL result, and the
OCR processing result (`none` pages = falsy `ocrResponse.pages`). -/
structure MistralEnv where
  uploadResult : Except String String
  signedUrlResult : Except String String
  ocrPagesResult : Except String (Option (List OCRPage))

/-- The function `performMistralOCR` (`main.ts:144-230`) over the call-outcome
environment, paired with the trace of network calls issued.  The auth gate
(`main.ts:145-147`) throws before the `try`, so its message is not wrapped;
every error inside the `try` is re-thrown as
`"Mistral OCR Failed: " + message` (`main.ts:226-229`). -/
def performMistralOCR (mistralApiKey : String) (extractImages : Bool) (env : MistralEnv) :
    Except String OCRResult × List NetOp :=
  if mistralApiKey = "" then
    (Except.error "Mistral API Key not configured", [])
  else
    match env.uploadResult with
    | Except.error e => (Except.error ("Mistral OCR Failed: " ++ e), [NetOp.upload])
    | Except.ok id =>
      if id = "" then
        (Except.error "Mistral OCR Failed: Failed to upload file to Mistral", [NetOp.upload])
      else
        match env.signedUrlResult with
        | Except.error e =>
          (Except.error ("Mistral OCR Failed: " ++ e), [NetOp.upload, NetOp.signedUrl])
        | Except.ok _ =>
          match env.ocrPagesResult with
          | Except.error e =>
            (Except.error ("Mistral OCR Failed: " ++ e),
             [NetOp.upload, NetOp.signedUrl, NetOp.process])
          | Except.ok pages =>
            (Except.ok (extractResult extractImages (pages.getD [])),
             [NetOp.upload, NetOp.signedUrl, NetOp.process])

/-- The empty-result gate of `processImage` (`main.ts:362`):
`if (!ocrResult.markdown) throw new Error("Empty OCR Result")`. -/
def processImageGate (r : OCRResult) : Except String OCRResult :=
  if r.markdown = "" then Except.error "Empty OCR Result" else Except.ok r

/-! ## Image persistence (`saveOCRImages`) -/

/-- One iteration of the `saveOCRImages` loop (`main.ts:248-265`): compute
`imagePath`, and either skip the image (its write failed and was caught) or
record it in `savedPaths` and write it to the vault. -/
def saveStep (targetFolder : String) (fails : String → Bool)
    (acc : List (String × String) × List (String × String)) (p : String × String) :
    List (String × String) × List (String × String) :=
  let imagePath := targetFolder ++ "/" ++ p.1
  if fails imagePath then acc
  else (assocSet acc.1 p.1 imagePath, assocSet acc.2 imagePath p.2)

/-- The function `saveOCRImages` (`main.ts:233-269`).  The vault collaborator is a
path→content association list; `fails path` says whether decoding or
writing that image throws (the code catches this per image and skips it,
`main.ts:262-264`).  Existing-file overwrite vs. creation
(`modifyBinary`/`createBinary`) are both `assocSet` on the vault.  Returns
the `savedPaths` mapping and the final vault.  The function is total: no
exception propagates to the caller. -/
def saveOCRImages (imageSubfolder : String) (images : List (String × String))
    (basePath : String) (fails : String → Bool) (vault : List (String × String)) :
    List (String × String) × List (String × String) :=
  if images = [] then ([], vault)
  else
    let targetFolder := if imageSubfolder ≠ "" then basePath ++ "/" ++ imageSubfolder
      else basePath
    images.foldl (saveStep targetFolder fails) ([], vault)

/-! ## Auxiliary character-list predicates -/

/-- No backslash occurs in the list. -/
def noBackslash : List Char → Bool
  | [] => true
  | c :: r => if c = '\\' then false else noBackslash r

/-- No character of the list is rewritten by the whitespace scrub. -/
def noDisallowedWs : List Char → Bool
  | [] => true
  | c :: r => if scrubChar c = c then noDisallowedWs r else false

/-- Some position of the list starts `\<opn>` and a later `\<cl>` follows:
exactly when the corresponding delimiter regex has a candidate match. -/
def hasDelimPair (opn cl : Char) : List Char → Bool
  | c₁ :: c₂ :: rest =>
    (if c₁ = '\\' ∧ c₂ = opn then (findClose cl rest).isSome else false) ||
      hasDelimPair opn cl (c₂ :: rest)
  | _ => false

/-! ## Model selection (`formatText`, `main.ts:275-284`) -/

/-- JavaScript `a || b` for an optional string `a`: the empty string is
falsy. -/
def jsOrElse (a : Option String) (b : String) : String :=
  match a with
  | some s => if s = "" then b else s
  | none => b

/-- Model selection: with a provider, `modelOverride || provider.getModel(…)`;
without one, `modelOverride || settings.openRouterModel`. -/
def selectModel (modelOverride : Option String) (providerModel : Option String)
    (openRouterModel : String) : String :=
  match providerModel with
  | some pm => jsOrElse modelOverride pm
  | none => jsOrElse modelOverride openRouterModel

/-! ## Basic lemmas -/

theorem String.data_inj {s t : String} (h : s.data = t.data) : s = t := by
  cases s; cases t; exact congrArg _ h

theorem data_append (a b : String) : (a ++ b).data = a.data ++ b.data := by
  cases a; cases b; rfl

theorem noBackslash_iff (l : List Char) : noBackslash l = true ↔ ∀ c ∈ l, c ≠ '\\' := by
  induction l with
  | nil => simp [noBackslash]
  | cons c r ih =>
    by_cases hc : c = '\\' <;> simp [noBackslash, hc, ih]

theorem noDisallowedWs_iff (l : List Char) :
    noDisallowedWs l = true ↔ ∀ c ∈ l, scrubChar c = c := by
  induction l with
  | nil => simp [noDisallowedWs]
  | cons c r ih =>
    by_cases hc : scrubChar c = c <;> simp [noDisallowedWs, hc, ih]

theorem scrub_map_id : ∀ {l : List Char}, noDisallowedWs l = true → l.map scrubChar = l := by
  intro l
  induction l with
  | nil => intro _; rfl
  | cons c r ih =>
    intro h
    rw [noDisallowedWs] at h
    by_cases hc : scrubChar c = c
    · simp only [List.map_cons, hc]
      rw [ih (by simpa [hc] using h)]
    · simp [hc] at h

theorem mem_jsTrimL {c : Char} {l : List Char} (h : c ∈ jsTrimL l) : c ∈ l := by
  unfold jsTrimL at h
  rw [List.mem_reverse] at h
  have h2 := (List.dropWhile_sublist isJsWhitespace).mem h
  rw [List.mem_reverse] at h2
  exact (List.dropWhile_sublist isJsWhitespace).mem h2

/-! ## Lemmas about `findClose` -/

theorem findClose_length {cl : Char} :
    ∀ {l : List Char} {p : List Char × List Char}, findClose cl l = some p →
      l.length = p.1.length + p.2.length + 2 := by
  intro l
  induction l with
  | nil => intro p h; simp [findClose] at h
  | cons c₁ t ih =>
    intro p h
    cases t with
    | nil => simp [findClose] at h
    | cons c₂ rest =>
      rw [findClose] at h
      split at h
      · cases h; simp
      · rw [Option.map_eq_some'] at h
        obtain ⟨q, hq, hpq⟩ := h
        have := ih hq
        subst hpq
        simp at this ⊢
        omega

theorem findClose_append {cl : Char} {m : List Char} (rest : List Char)
    (hm : noBackslash m = true) :
    findClose cl (m ++ '\\' :: cl :: rest) = some (m, rest) := by
  induction m with
  | nil => simp [findClose]
  | cons a m' ih =>
    rw [noBackslash] at hm
    have ha : a ≠ '\\' := by by_contra hc; simp [hc] at hm
    rcases hte : m' ++ '\\' :: cl :: rest with _ | ⟨c₂, t'⟩
    · simp at hte
    · show findClose cl (a :: (m' ++ '\\' :: cl :: rest)) = _
      rw [hte, findClose, if_neg (by rintro ⟨h1, _⟩; exact ha h1), ← hte,
        ih (by simpa [ha] using hm)]
      rfl

/-! ## Fuel handling for the rewrites -/

theorem replaceBlocksF_nil (f : Nat) : replaceBlocksF f [] = [] := by
  cases f <;> rfl

theorem replaceInlineF_nil (f : Nat) : replaceInlineF f [] = [] := by
  cases f <;> rfl

theorem replaceBlocksF_congr :
    ∀ (f₁ f₂ : Nat) (l : List Char), l.length ≤ f₁ → l.length ≤ f₂ →
      replaceBlocksF f₁ l = replaceBlocksF f₂ l := by
  intro f₁
  induction f₁ with
  | zero =>
    intro f₂ l h1 _
    rw [List.length_eq_zero.mp (Nat.le_zero.mp h1)]
    exact (replaceBlocksF_nil f₂).symm
  | succ f₁ ih =>
    intro f₂ l h1 h2
    cases f₂ with
    | zero =>
      rw [List.length_eq_zero.mp (Nat.le_zero.mp h2)]
      exact replaceBlocksF_nil _
    | succ f₂ =>
      cases l with
      | nil => rw [replaceBlocksF_nil, replaceBlocksF_nil]
      | cons c₁ t =>
        cases t with
        | nil => rfl
        | cons c₂ rest =>
          simp only [List.length_cons] at h1 h2
          rw [replaceBlocksF, replaceBlocksF]
          by_cases h : c₁ = '\\' ∧ c₂ = '['
          · rw [if_pos h, if_pos h]
            cases hfc : findClose ']' rest with
            | none =>
              rw [ih f₂ (c₂ :: rest) (by simp; omega) (by simp; omega)]
            | some p =>
              obtain ⟨inner, rest'⟩ := p
              have hlen := findClose_length hfc
              simp only at hlen
              have e2 := ih f₂ rest' (by omega) (by omega)
              simp only [e2]
          · rw [if_neg h, if_neg h,
              ih f₂ (c₂ :: rest) (by simp; omega) (by simp; omega)]

theorem replaceInlineF_congr :
    ∀ (f₁ f₂ : Nat) (l : List Char), l.length ≤ f₁ → l.length ≤ f₂ →
      replaceInlineF f₁ l = replaceInlineF f₂ l := by
  intro f₁
  induction f₁ with
  | zero =>
    intro f₂ l h1 _
    rw [List.length_eq_zero.mp (Nat.le_zero.mp h1)]
    exact (replaceInlineF_nil f₂).symm
  | succ f₁ ih =>
    intro f₂ l h1 h2
    cases f₂ with
    | zero =>
      rw [List.length_eq_zero.mp (Nat.le_zero.mp h2)]
      exact replaceInlineF_nil _
    | succ f₂ =>
      cases l with
      | nil => rw [replaceInlineF_nil, replaceInlineF_nil]
      | cons c₁ t =>
        cases t with
        | nil => rfl
        | cons c₂ rest =>
          simp only [List.length_cons] at h1 h2
          rw [replaceInlineF, replaceInlineF]
          by_cases h : c₁ = '\\' ∧ c₂ = '('
          · rw [if_pos h, if_pos h]
            cases hfc : findClose ')' rest with
            | none =>
              rw [ih f₂ (c₂ :: rest) (by simp; omega) (by simp; omega)]
            | some p =>
              obtain ⟨inner, rest'⟩ := p
              have hlen := findClose_length hfc
              simp only at hlen
              have e1 := ih f₂ (c₂ :: rest) (by simp; omega) (by simp; omega)
              have e2 := ih f₂ rest' (by omega) (by omega)
              simp only [e1, e2]
          · rw [if_neg h, if_neg h,
              ih f₂ (c₂ :: rest) (by simp; omega) (by simp; omega)]

/-! ## Structural lemmas about the block rewrite -/

theorem replaceBlocks_nil : replaceBlocks [] = [] := rfl

theorem replaceBlocks_cons_ne {c : Char} (l : List Char) (h : c ≠ '\\') :
    replaceBlocks (c :: l) = c :: replaceBlocks l := by
  cases l with
  | nil => rfl
  | cons c₂ rest =>
    show replaceBlocksF (rest.length + 1 + 1) (c :: c₂ :: rest) = _
    rw [replaceBlocksF, if_neg (by rintro ⟨h1, _⟩; exact h h1)]
    rfl

theorem replaceBlocks_cons_bs {c₂ : Char} (l : List Char) (h : c₂ ≠ '[') :
    replaceBlocks ('\\' :: c₂ :: l) = '\\' :: replaceBlocks (c₂ :: l) := by
  show replaceBlocksF (l.length + 1 + 1) ('\\' :: c₂ :: l) = _
  rw [replaceBlocksF, if_neg (by rintro ⟨_, h2⟩; exact h h2)]
  rfl

theorem replaceBlocks_append {p : List Char} (l : List Char) (hp : noBackslash p = true) :
    replaceBlocks (p ++ l) = p ++ replaceBlocks l := by
  induction p with
  | nil => rfl
  | cons c p' ih =>
    rw [noBackslash] at hp
    have hc : c ≠ '\\' := by by_contra hc; simp [hc] at hp
    rw [List.cons_append, replaceBlocks_cons_ne _ hc, ih (by simpa [hc] using hp)]
    rfl

theorem replaceBlocks_open {m : List Char} (rest : List Char) (hm : noBackslash m = true) :
    replaceBlocks ('\\' :: '[' :: (m ++ '\\' :: ']' :: rest)) =
      '$' :: '$' :: '\n' :: (jsTrimL m ++ '\n' :: '$' :: '$' :: replaceBlocks rest) := by
  have hfuel : replaceBlocksF ((m ++ '\\' :: ']' :: rest).length + 1) rest = replaceBlocks rest :=
    replaceBlocksF_congr _ _ rest (by simp; omega) le_rfl
  show replaceBlocksF ((m ++ '\\' :: ']' :: rest).length + 1 + 1) _ = _
  rw [replaceBlocksF, if_pos ⟨rfl, rfl⟩, findClose_append rest hm]
  simp only [hfuel]

/-- An inline span passes through the block rewrite untouched. -/
theorem replaceBlocks_inl_pass {i : List Char} (l : List Char) (hi : noBackslash i = true) :
    replaceBlocks ('\\' :: '(' :: (i ++ '\\' :: ')' :: l)) =
      '\\' :: '(' :: (i ++ '\\' :: ')' :: replaceBlocks l) := by
  rw [replaceBlocks_cons_bs _ (by decide), replaceBlocks_cons_ne _ (by decide),
    replaceBlocks_append _ hi, replaceBlocks_cons_bs _ (by decide),
    replaceBlocks_cons_ne _ (by decide)]

/-! ## Structural lemmas about the inline rewrite -/

theorem replaceInline_nil : replaceInline [] = [] := rfl

theorem replaceInline_cons_ne {c : Char} (l : List Char) (h : c ≠ '\\') :
    replaceInline (c :: l) = c :: replaceInline l := by
  cases l with
  | nil => rfl
  | cons c₂ rest =>
    show replaceInlineF (rest.length + 1 + 1) (c :: c₂ :: rest) = _
    rw [replaceInlineF, if_neg (by rintro ⟨h1, _⟩; exact h h1)]
    rfl

theorem replaceInline_cons_bs {c₂ : Char} (l : List Char) (h : c₂ ≠ '(') :
    replaceInline ('\\' :: c₂ :: l) = '\\' :: replaceInline (c₂ :: l) := by
  show replaceInlineF (l.length + 1 + 1) ('\\' :: c₂ :: l) = _
  rw [replaceInlineF, if_neg (by rintro ⟨_, h2⟩; exact h h2)]
  rfl

theorem replaceInline_append {p : List Char} (l : List Char) (hp : noBackslash p = true) :
    replaceInline (p ++ l) = p ++ replaceInline l := by
  induction p with
  | nil => rfl
  | cons c p' ih =>
    rw [noBackslash] at hp
    have hc : c ≠ '\\' := by by_contra hc; simp [hc] at hp
    rw [List.cons_append, replaceInline_cons_ne _ hc, ih (by simpa [hc] using hp)]
    rfl

/-- An inline span whose trimmed content has no line terminator is rewritten
to `$<trimmed>$`. -/
theorem replaceInline_open {i : List Char} (rest : List Char) (hi : noBackslash i = true)
    (hnl : (jsTrimL i).any isLineTerminator = false) :
    replaceInline ('\\' :: '(' :: (i ++ '\\' :: ')' :: rest)) =
      '$' :: (jsTrimL i ++ '$' :: replaceInline rest) := by
  have hfuel : replaceInlineF ((i ++ '\\' :: ')' :: rest).length + 1) rest = replaceInline rest :=
    replaceInlineF_congr _ _ rest (by simp; omega) le_rfl
  show replaceInlineF ((i ++ '\\' :: ')' :: rest).length + 1 + 1) _ = _
  rw [replaceInlineF, if_pos ⟨rfl, rfl⟩, findClose_append rest hi]
  simp only [hnl, Bool.false_eq_true, if_false, hfuel]

/-- An inline span whose trimmed content contains a line terminator is not a
match: the scan leaves it as it is and continues after the opener. -/
theorem replaceInline_skip {i : List Char} (rest : List Char) (hi : noBackslash i = true)
    (hnl : (jsTrimL i).any isLineTerminator = true) :
    replaceInline ('\\' :: '(' :: (i ++ '\\' :: ')' :: rest)) =
      '\\' :: '(' :: (i ++ '\\' :: ')' :: replaceInline rest) := by
  have hfuel : replaceInlineF ((i ++ '\\' :: ')' :: rest).length + 1)
      ('(' :: (i ++ '\\' :: ')' :: rest)) = replaceInline ('(' :: (i ++ '\\' :: ')' :: rest)) := by
    apply replaceInlineF_congr <;> simp
  show replaceInlineF ((i ++ '\\' :: ')' :: rest).length + 1 + 1) _ = _
  rw [replaceInlineF, if_pos ⟨rfl, rfl⟩, findClose_append rest hi]
  simp only [hnl, if_true, hfuel]
  rw [replaceInline_cons_ne _ (by decide), replaceInline_append _ hi,
    replaceInline_cons_bs _ (by decide), replaceInline_cons_ne _ (by decide)]

/-! ## No-match characterizations -/

theorem replaceBlocks_noop : ∀ {l : List Char}, hasDelimPair '[' ']' l = false →
    replaceBlocks l = l := by
  intro l
  induction l with
  | nil => intro _; rfl
  | cons c₁ t ih =>
    intro h
    cases t with
    | nil => rfl
    | cons c₂ rest =>
      rw [hasDelimPair, Bool.or_eq_false_iff] at h
      obtain ⟨h1, h2⟩ := h
      by_cases hc : c₁ = '\\' ∧ c₂ = '['
      · rw [if_pos hc] at h1
        obtain ⟨hc1, hc2⟩ := hc
        subst hc1; subst hc2
        cases hfc : findClose ']' rest with
        | none =>
          show replaceBlocksF (rest.length + 1 + 1) _ = _
          rw [replaceBlocksF, if_pos ⟨rfl, rfl⟩, hfc]
          exact congrArg _ (ih h2)
        | some p => rw [hfc] at h1; simp at h1
      · show replaceBlocksF (rest.length + 1 + 1) _ = _
        rw [replaceBlocksF, if_neg hc]
        exact congrArg _ (ih h2)

theorem replaceInline_noop : ∀ {l : List Char}, hasDelimPair '(' ')' l = false →
    replaceInline l = l := by
  intro l
  induction l with
  | nil => intro _; rfl
  | cons c₁ t ih =>
    intro h
    cases t with
    | nil => rfl
    | cons c₂ rest =>
      rw [hasDelimPair, Bool.or_eq_false_iff] at h
      obtain ⟨h1, h2⟩ := h
      by_cases hc : c₁ = '\\' ∧ c₂ = '('
      · rw [if_pos hc] at h1
        obtain ⟨hc1, hc2⟩ := hc
        subst hc1; subst hc2
        cases hfc : findClose ')' rest with
        | none =>
          show replaceInlineF (rest.length + 1 + 1) _ = _
          rw [replaceInlineF, if_pos ⟨rfl, rfl⟩, hfc]
          exact congrArg _ (ih h2)
        | some p => rw [hfc] at h1; simp at h1
      · show replaceInlineF (rest.length + 1 + 1) _ = _
        rw [replaceInlineF, if_neg hc]
        exact congrArg _ (ih h2)

/-! ## `cleanLatexDelimiters` at the list level -/

theorem clean_eq (l : List Char) :
    cleanLatexDelimiters ⟨l⟩ = ⟨replaceInline (replaceBlocks (l.map scrubChar))⟩ := by
  unfold cleanLatexDelimiters
  split
  · rename_i h
    have : l = [] := congrArg String.data h
    subst this
    rfl
  · rfl

/-- On canonical-form input the canonicalizer is the identity. -/
theorem clean_id {x : String} (h1 : hasDelimPair '[' ']' x.data = false)
    (h2 : hasDelimPair '(' ')' x.data = false) (h3 : noDisallowedWs x.data = true) :
    cleanLatexDelimiters x = x := by
  have hx : x = ⟨x.data⟩ := by cases x; rfl
  rw [hx, clean_eq, scrub_map_id h3, replaceBlocks_noop h1, replaceInline_noop h2]

/-! ## Texts as alternating segments of plain text, blocks and inline spans -/

/-- A segment of an input text: plain text, a `\[ … \]` block, or a
`\( … \)` inline span. -/
inductive Seg
  | txt : String → Seg
  | blk : String → Seg
  | inl : String → Seg

/-- The segment as it occurs in the input text. -/
def Seg.src : Seg → List Char
  | .txt s => s.data
  | .blk s => '\\' :: '[' :: (s.data ++ ['\\', ']'])
  | .inl s => '\\' :: '(' :: (s.data ++ ['\\', ')'])

/-- The segment after the block rewrite (inline spans still untouched). -/
def Seg.mid : Seg → List Char
  | .txt s => s.data
  | .blk s => '$' :: '$' :: '\n' :: (jsTrimL s.data ++ ['\n', '$', '$'])
  | .inl s => '\\' :: '(' :: (s.data ++ ['\\', ')'])

/-- The segment after both rewrites. -/
def Seg.out : Seg → List Char
  | .txt s => s.data
  | .blk s => '$' :: '$' :: '\n' :: (jsTrimL s.data ++ ['\n', '$', '$'])
  | .inl s => '$' :: (jsTrimL s.data ++ ['$'])

/-- Side conditions: segment contents hold no backslash and none of the
scrubbed whitespace characters; the content of an inline span must in
addition, once trimmed, hold no line terminator (the inline regex `.`
cannot match one). -/
def Seg.ok : Seg → Bool
  | .txt s => noBackslash s.data && noDisallowedWs s.data
  | .blk s => noBackslash s.data && noDisallowedWs s.data
  | .inl s => noBackslash s.data && noDisallowedWs s.data &&
      !((jsTrimL s.data).any isLineTerminator)

def renderSrc (segs : List Seg) : List Char := (segs.map Seg.src).flatten

def renderMid (segs : List Seg) : List Char := (segs.map Seg.mid).flatten

def renderOut (segs : List Seg) : List Char := (segs.map Seg.out).flatten

theorem noBackslash_of_trim {s : List Char} (h : noBackslash s = true) :
    noBackslash (jsTrimL s) = true := by
  rw [noBackslash_iff] at h ⊢
  exact fun c hc => h c (mem_jsTrimL hc)

theorem noBackslash_append_of {a b : List Char} (ha : noBackslash a = true)
    (hb : noBackslash b = true) : noBackslash (a ++ b) = true := by
  rw [noBackslash_iff] at ha hb ⊢
  intro c hc
  rcases List.mem_append.mp hc with h | h
  · exact ha c h
  · exact hb c h

theorem scrub_renderSrc {segs : List Seg} (h : segs.all Seg.ok = true) :
    (renderSrc segs).map scrubChar = renderSrc segs := by
  induction segs with
  | nil => rfl
  | cons seg rest ih =>
    rw [List.all_cons, Bool.and_eq_true] at h
    obtain ⟨hseg, hrest⟩ := h
    have hr := ih hrest
    show ((seg.src ++ renderSrc rest).map scrubChar) = seg.src ++ renderSrc rest
    rw [List.map_append, hr]
    cases seg with
    | txt s =>
      rw [Seg.ok, Bool.and_eq_true] at hseg
      simp only [Seg.src]
      rw [scrub_map_id hseg.2]
    | blk s =>
      rw [Seg.ok, Bool.and_eq_true] at hseg
      simp only [Seg.src, List.map_cons, List.map_append]
      rw [scrub_map_id hseg.2]
      rfl
    | inl s =>
      rw [Seg.ok, Bool.and_eq_true, Bool.and_eq_true] at hseg
      simp only [Seg.src, List.map_cons, List.map_append]
      rw [scrub_map_id hseg.1.2]
      rfl

theorem stageA {segs : List Seg} (h : segs.all Seg.ok = true) :
    replaceBlocks (renderSrc segs) = renderMid segs := by
  induction segs with
  | nil => rfl
  | cons seg rest ih =>
    rw [List.all_cons, Bool.and_eq_true] at h
    obtain ⟨hseg, hrest⟩ := h
    have hr := ih hrest
    show replaceBlocks (seg.src ++ renderSrc rest) = seg.mid ++ renderMid rest
    cases seg with
    | txt s =>
      rw [Seg.ok, Bool.and_eq_true] at hseg
      simp only [Seg.src, Seg.mid]
      rw [replaceBlocks_append _ hseg.1, hr]
    | blk s =>
      rw [Seg.ok, Bool.and_eq_true] at hseg
      simp only [Seg.src, Seg.mid]
      rw [List.cons_append, List.cons_append, List.append_assoc]
      show replaceBlocks ('\\' :: '[' :: (s.data ++ ('\\' :: ']' :: renderSrc rest))) = _
      rw [replaceBlocks_open _ hseg.1, hr]
      simp
    | inl s =>
      rw [Seg.ok, Bool.and_eq_true, Bool.and_eq_true] at hseg
      simp only [Seg.src, Seg.mid]
      rw [List.cons_append, List.cons_append, List.append_assoc]
      show replaceBlocks ('\\' :: '(' :: (s.data ++ ('\\' :: ')' :: renderSrc rest))) = _
      rw [replaceBlocks_inl_pass _ hseg.1.1, hr]
      simp

theorem stageB {segs : List Seg} (h : segs.all Seg.ok = true) :
    replaceInline (renderMid segs) = renderOut segs := by
  induction segs with
  | nil => rfl
  | cons seg rest ih =>
    rw [List.all_cons, Bool.and_eq_true] at h
    obtain ⟨hseg, hrest⟩ := h
    have hr := ih hrest
    show replaceInline (seg.mid ++ renderMid rest) = seg.out ++ renderOut rest
    cases seg with
    | txt s =>
      rw [Seg.ok, Bool.and_eq_true] at hseg
      simp only [Seg.mid, Seg.out]
      rw [replaceInline_append _ hseg.1, hr]
    | blk s =>
      rw [Seg.ok, Bool.and_eq_true] at hseg
      simp only [Seg.mid, Seg.out]
      have hnb : noBackslash ('$' :: '$' :: '\n' :: (jsTrimL s.data ++ ['\n', '$', '$'])) = true := by
        rw [noBackslash, noBackslash, noBackslash]
        simp only [if_neg (by decide : ¬('$' : Char) = '\\'),
          if_neg (by decide : ¬('\n' : Char) = '\\')]
        exact noBackslash_append_of (noBackslash_of_trim hseg.1) (by decide)
      rw [show ('$' :: '$' :: '\n' :: (jsTrimL s.data ++ ['\n', '$', '$'])) ++ renderMid rest =
        ('$' :: '$' :: '\n' :: (jsTrimL s.data ++ ['\n', '$', '$'])) ++ renderMid rest from rfl,
        replaceInline_append _ hnb, hr]
    | inl s =>
      rw [Seg.ok, Bool.and_eq_true, Bool.and_eq_true] at hseg
      simp only [Seg.mid, Seg.out]
      rw [List.cons_append, List.cons_append, List.append_assoc]
      show replaceInline ('\\' :: '(' :: (s.data ++ ('\\' :: ')' :: renderMid rest))) = _
      rw [replaceInline_open _ hseg.1.1 (by simpa using hseg.2), hr]
      simp

theorem noDisallowedWs_append_of {a b : List Char} (ha : noDisallowedWs a = true)
    (hb : noDisallowedWs b = true) : noDisallowedWs (a ++ b) = true := by
  rw [noDisallowedWs_iff] at ha hb ⊢
  intro c hc
  rcases List.mem_append.mp hc with h | h
  · exact ha c h
  · exact hb c h

theorem noDisallowedWs_cons_of {c : Char} {l : List Char} (hc : scrubChar c = c)
    (hl : noDisallowedWs l = true) : noDisallowedWs (c :: l) = true := by
  rw [noDisallowedWs, if_pos hc]
  exact hl

theorem replaceBlocks_id_of_noBackslash {q : List Char} (hq : noBackslash q = true) :
    replaceBlocks q = q := by
  have h := replaceBlocks_append (l := []) (p := q) hq
  simpa [replaceBlocks_nil] using h

theorem replaceInline_id_of_noBackslash {q : List Char} (hq : noBackslash q = true) :
    replaceInline q = q := by
  have h := replaceInline_append (l := []) (p := q) hq
  simpa [replaceInline_nil] using h

/-! ## Claims C4, C8, C9 -/

/-- Claim C4: `cleanLatexDelimiters` replaces every `\[ … \]` block by
`$$\n<trimmed content>\n$$` and every `\( … \)` span by `$<trimmed
content>$`, non-greedily and at every occurrence.  Stated over any text
decomposed into segments whose contents hold no backslash, none of the
scrubbed whitespace characters, and — for inline spans, as the inline
regex `.` requires — no line terminator in the trimmed content. -/
theorem c4_canonicalizer_rewrites (segs : List Seg) (h : segs.all Seg.ok = true) :
    cleanLatexDelimiters ⟨renderSrc segs⟩ = ⟨renderOut segs⟩ := by
  rw [clean_eq, scrub_renderSrc h, stageA h, stageB h]

/-- The spec's round-trip example, as a segment list. -/
def exSegs : List Seg :=
  [Seg.txt "Let ", Seg.blk " x^2 + y^2 = z^2 ", Seg.txt " and ", Seg.inl " a=b ", Seg.txt "."]

/-- Witness for C4: the spec's own round-trip example. -/
theorem c4_canonicalizer_rewrites_witness :
    exSegs.all Seg.ok = true ∧
    cleanLatexDelimiters "Let \\[ x^2 + y^2 = z^2 \\] and \\( a=b \\)." =
      "Let $$\nx^2 + y^2 = z^2\n$$ and $a=b$." := by
  refine ⟨by decide, ?_⟩
  have h := c4_canonicalizer_rewrites exSegs (by decide)
  have hin : ("Let \\[ x^2 + y^2 = z^2 \\] and \\( a=b \\)." : String) =
      ⟨renderSrc exSegs⟩ := by decide
  have hout : (⟨renderOut exSegs⟩ : String) =
      "Let $$\nx^2 + y^2 = z^2\n$$ and $a=b$." := by decide
  rw [hin, h, hout]

/-- Claim C8: on canonical-form input — no remaining `\[..\]` or `\(..\)`
delimiter pair and none of the scrubbed whitespace characters — the
canonicalizer is idempotent (indeed the identity, from which idempotence
follows). -/
theorem c8_canonicalizer_idempotent (x : String)
    (h1 : hasDelimPair '[' ']' x.data = false) (h2 : hasDelimPair '(' ')' x.data = false)
    (h3 : noDisallowedWs x.data = true) :
    cleanLatexDelimiters (cleanLatexDelimiters x) = cleanLatexDelimiters x := by
  have h := clean_id h1 h2 h3
  rw [h, h]

/-- Witness for C8 at a concrete canonical-form text. -/
theorem c8_canonicalizer_idempotent_witness :
    (hasDelimPair '[' ']' ("ok $a=b$ and $$\nx^2\n$$" : String).data = false ∧
     hasDelimPair '(' ')' ("ok $a=b$ and $$\nx^2\n$$" : String).data = false ∧
     noDisallowedWs ("ok $a=b$ and $$\nx^2\n$$" : String).data = true) ∧
    cleanLatexDelimiters (cleanLatexDelimiters "ok $a=b$ and $$\nx^2\n$$") =
      cleanLatexDelimiters "ok $a=b$ and $$\nx^2\n$$" :=
  ⟨⟨by decide, by decide, by decide⟩,
    c8_canonicalizer_idempotent _ (by decide) (by decide) (by decide)⟩

/-- Counterexample to C9 as stated: in `"\(\na\)"` the opening `\(` and the
closing `\)` lie on different lines, yet the span is rewritten to `$a$`
(the newline is absorbed by the `\s*` of the inline regex), not left
unchanged. -/
theorem c9_inline_newline_cex :
    cleanLatexDelimiters "\\(\na\\)" = "$a$" ∧ ("$a$" : String) ≠ "\\(\na\\)" := by
  exact ⟨by decide, by decide⟩

/-- Claim C9 (amended): the block rewrite matches content spanning multiple
lines; the inline rewrite skips a `\( … \)` span exactly when its trimmed
inner content still contains a line terminator (newlines lying in the
leading/trailing whitespace of the span are absorbed and such spans are
rewritten). -/
theorem c9_newline_behavior_amended (p i q m : String)
    (hp : noBackslash p.data = true) (hp2 : noDisallowedWs p.data = true)
    (hi : noBackslash i.data = true) (hi2 : noDisallowedWs i.data = true)
    (hq : noBackslash q.data = true) (hq2 : noDisallowedWs q.data = true)
    (hm : noBackslash m.data = true) (hm2 : noDisallowedWs m.data = true)
    (hnl : (jsTrimL i.data).any isLineTerminator = true) :
    cleanLatexDelimiters ⟨p.data ++ '\\' :: '(' :: (i.data ++ '\\' :: ')' :: q.data)⟩ =
      ⟨p.data ++ '\\' :: '(' :: (i.data ++ '\\' :: ')' :: q.data)⟩ ∧
    cleanLatexDelimiters ⟨'\\' :: '[' :: (m.data ++ ['\\', ']'])⟩ =
      ⟨'$' :: '$' :: '\n' :: (jsTrimL m.data ++ ['\n', '$', '$'])⟩ := by
  constructor
  · rw [clean_eq]
    have hws : noDisallowedWs (p.data ++ '\\' :: '(' :: (i.data ++ '\\' :: ')' :: q.data)) =
        true :=
      noDisallowedWs_append_of hp2 (noDisallowedWs_cons_of (by decide)
        (noDisallowedWs_cons_of (by decide) (noDisallowedWs_append_of hi2
          (noDisallowedWs_cons_of (by decide) (noDisallowedWs_cons_of (by decide) hq2)))))
    rw [scrub_map_id hws, replaceBlocks_append _ hp, replaceBlocks_inl_pass _ hi,
      replaceBlocks_id_of_noBackslash hq, replaceInline_append _ hp,
      replaceInline_skip _ hi hnl, replaceInline_id_of_noBackslash hq]
  · rw [clean_eq]
    have hws : noDisallowedWs ('\\' :: '[' :: (m.data ++ ['\\', ']'])) = true :=
      noDisallowedWs_cons_of (by decide) (noDisallowedWs_cons_of (by decide)
        (noDisallowedWs_append_of hm2 (by decide)))
    rw [scrub_map_id hws, replaceBlocks_open _ hm, replaceBlocks_nil]
    have hnb : noBackslash ('$' :: '$' :: '\n' :: (jsTrimL m.data ++ '\n' :: '$' :: '$' :: [])) =
        true := by
      rw [noBackslash, noBackslash, noBackslash]
      simp only [if_neg (by decide : ¬('$' : Char) = '\\'),
        if_neg (by decide : ¬('\n' : Char) = '\\')]
      exact noBackslash_append_of (noBackslash_of_trim hm) (by decide)
    rw [replaceInline_id_of_noBackslash hnb]

/-- Witness for C9 (amended) at concrete inputs: an inline span with a
newline between non-whitespace characters is kept, a block with a newline
in its content is rewritten. -/
theorem c9_newline_behavior_amended_witness :
    ((jsTrimL ("a\nb" : String).data).any isLineTerminator = true) ∧
    cleanLatexDelimiters "s \\(a\nb\\) e" = "s \\(a\nb\\) e" ∧
    cleanLatexDelimiters "\\[x\ny\\]" = "$$\nx\ny\n$$" := by
  refine ⟨by decide, ?_, ?_⟩
  · have h := (c9_newline_behavior_amended "s " "a\nb" " e" "x\ny"
      (by decide) (by decide) (by decide) (by decide) (by decide) (by decide)
      (by decide) (by decide) (by decide)).1
    have hin : ("s \\(a\nb\\) e" : String) =
        ⟨("s " : String).data ++ '\\' :: '(' :: (("a\nb" : String).data ++
          '\\' :: ')' :: (" e" : String).data)⟩ := by decide
    rw [hin, h]
  · have h := (c9_newline_behavior_amended "s " "a\nb" " e" "x\ny"
      (by decide) (by decide) (by decide) (by decide) (by decide) (by decide)
      (by decide) (by decide) (by decide)).2
    have hin : ("\\[x\ny\\]" : String) =
        ⟨'\\' :: '[' :: (("x\ny" : String).data ++ ['\\', ']'])⟩ := by decide
    have hout : (⟨'$' :: '$' :: '\n' :: (jsTrimL ("x\ny" : String).data ++ ['\n', '$', '$'])⟩ :
        String) = "$$\nx\ny\n$$" := by decide
    rw [hin, h, hout]

/-! ## Claim C1 — the response normalizer -/

/-- Counterexample to C1 as stated: on a raw completion that fails JSON
parsing (plain prose — `JSON.parse` rejects it), the fallback output is the
cleaned text itself, NOT passed through the canonicalizer: the `\( a \)`
span survives, though the canonicalizer would rewrite it to `$a$`
(`main.ts:348` returns `content` directly). -/
theorem c1_fallback_not_canonicalized_cex :
    formatTextNormalize jsonParseFailure "plain \\( a \\)" = "plain \\( a \\)" ∧
    cleanLatexDelimiters "plain \\( a \\)" = "plain $a$" ∧
    ("plain \\( a \\)" : String) ≠ "plain $a$" :=
  ⟨rfl, by decide, by decide⟩

/-- Claim C1 (amended): the normalizer never fails — for every raw
completion text and every outcome of the external JSON-parse/validate step,
if parsing or validation of the cleaned text fails the cleaned text itself
is returned verbatim (without the canonicalizer); only on success is the
`formatted_markdown` field canonicalized. -/
theorem c1_normalizer_amended (parse : String → Option FormattedResponse) (raw : String) :
    (parse (cleanContent raw) = none → formatTextNormalize parse raw = cleanContent raw) ∧
    (∀ r, parse (cleanContent raw) = some r →
      formatTextNormalize parse raw = cleanLatexDelimiters r.formatted_markdown) := by
  constructor
  · intro h
    simp [formatTextNormalize, h]
  · intro r h
    simp [formatTextNormalize, h]

/-- Witness for C1 (amended): a concrete non-JSON completion takes the
fallback path. -/
theorem c1_normalizer_amended_witness :
    jsonParseFailure (cleanContent "x \\( y \\)") = none ∧
    formatTextNormalize jsonParseFailure "x \\( y \\)" = cleanContent "x \\( y \\)" :=
  ⟨rfl, (c1_normalizer_amended jsonParseFailure "x \\( y \\)").1 rfl⟩

/-! ## Claim C5 — the auth gate -/

/-- Claim C5: with an empty configured Mistral credential,
`performMistralOCR` fails immediately with the authentication error and the
network-call trace is empty — no upload, signed-URL fetch or OCR processing
call is issued, whatever outcomes the transport would have produced. -/
theorem c5_auth_gate (extractImages : Bool) (env : MistralEnv) :
    performMistralOCR "" extractImages env =
      (Except.error "Mistral API Key not configured", []) := rfl

/-! ## Claim C7 — model selection -/

/-- Counterexample to C7 as stated: an explicit but empty-string override is
"given" yet never used — JavaScript `modelOverride || …` treats `""` as
falsy and falls back to the provider's model (resp. the settings model). -/
theorem c7_empty_override_cex :
    selectModel (some "") (some "prov/m") "loc/m" = "prov/m" ∧
    selectModel (some "") none "loc/m" = "loc/m" ∧
    ("prov/m" : String) ≠ "" ∧ ("loc/m" : String) ≠ "" := by
  exact ⟨rfl, rfl, by decide, by decide⟩

/-- Claim C7 (amended): a NON-EMPTY explicit override always wins; an
empty-string override behaves exactly as an absent one; otherwise the
provider's configured model is used when a provider is present, else the
locally configured default model. -/
theorem c7_model_selection_amended (t : String) (ht : t ≠ "") (p : Option String)
    (pm s : String) :
    selectModel (some t) p s = t ∧
    selectModel (some "") p s = selectModel none p s ∧
    selectModel none (some pm) s = pm ∧
    selectModel none none s = s := by
  refine ⟨?_, ?_, rfl, rfl⟩
  · cases p <;> simp [selectModel, jsOrElse, ht]
  · cases p <;> simp [selectModel, jsOrElse]

/-- Witness for C7 (amended) at concrete model strings. -/
theorem c7_model_selection_amended_witness :
    (("ov/m" : String) ≠ "") ∧
    (selectModel (some "ov/m") (some "prov/m") "loc/m" = "ov/m" ∧
     selectModel (some "") (some "prov/m") "loc/m" = selectModel none (some "prov/m") "loc/m" ∧
     selectModel none (some "prov/m") "loc/m" = "prov/m" ∧
     selectModel none none "loc/m" = "loc/m") :=
  ⟨by decide, c7_model_selection_amended "ov/m" (by decide) (some "prov/m") "prov/m" "loc/m"⟩

/-! ## Claims C2, C3 — the page join and the empty-result gate -/

/-- The mathematical page join: the page texts with exactly `n-1` separator
markers, inserted only between consecutive pages. -/
def sepJoin : List String → String
  | [] => ""
  | [m] => m
  | m :: m₂ :: ms => m ++ "\n\n---\n\n" ++ sepJoin (m₂ :: ms)

/-- Helper join: every element prefixed by the separator. -/
def prefJoin : List String → String
  | [] => ""
  | m :: ms => "\n\n---\n\n" ++ m ++ prefJoin ms

theorem data_empty : ("" : String).data = [] := rfl

theorem sepJoin_data (m : String) :
    ∀ ms : List String, (sepJoin (m :: ms)).data = m.data ++ (prefJoin ms).data := by
  intro ms
  induction ms generalizing m with
  | nil => simp [sepJoin, prefJoin, data_empty]
  | cons m₂ ms ih =>
    show (m ++ "\n\n---\n\n" ++ sepJoin (m₂ :: ms)).data = _
    rw [data_append, data_append, ih m₂]
    simp [prefJoin, data_append]

theorem foldMd_pos (ext : Bool) :
    ∀ (pages : List OCRPage) (s : String) (imgs : List (String × String)) (n : Nat),
      0 < n →
      ((pages.foldl (pagesFoldStep ext) (s, imgs, n)).1).data =
        s.data ++ (prefJoin (pages.map fun p => p.markdown.getD "")).data := by
  intro pages
  induction pages with
  | nil => intro s imgs n _; simp [prefJoin, data_empty]
  | cons pg rest ih =>
    intro s imgs n hn
    rw [List.foldl_cons]
    show ((rest.foldl (pagesFoldStep ext)
      (s ++ (if 0 < n then "\n\n---\n\n" else "") ++ (pg.markdown.getD ""),
        pageImagesStep ext imgs pg, n + 1)).1).data = _
    rw [ih _ _ (n + 1) (Nat.succ_pos n), if_pos hn]
    simp [prefJoin, data_append]

/-- The markdown accumulated by the page loop equals the `n-1`-separator
join of the page markdowns. -/
theorem pagesFold_markdown (ext : Bool) (pages : List OCRPage) :
    (pagesFold ext pages).1 = sepJoin (pages.map fun p => p.markdown.getD "") := by
  apply String.data_inj
  cases pages with
  | nil => rfl
  | cons pg rest =>
    show ((rest.foldl (pagesFoldStep ext) (pagesFoldStep ext ("", [], 0) pg)).1).data = _
    rw [show pagesFoldStep ext ("", [], 0) pg =
      ("" ++ (if (0 : Nat) < 0 then "\n\n---\n\n" else "") ++ (pg.markdown.getD ""),
        pageImagesStep ext [] pg, 1) from rfl]
    rw [foldMd_pos ext rest _ _ 1 Nat.one_pos, List.map_cons, sepJoin_data]
    simp [data_append, data_empty]

/-- Counterexample to C3 as stated: a one-page response whose page markdown
is `" A "` — the join with `n-1 = 0` separators is `" A "`, but the
markdown returned by the extractor is the trimmed `"A"` (`main.ts:224`). -/
theorem c3_returned_markdown_trimmed_cex :
    (performMistralOCR "k" false ⟨Except.ok "id", Except.ok "u",
        Except.ok (some [⟨some " A ", none⟩])⟩).1 =
      Except.ok { markdown := "A", images := [] } ∧
    sepJoin [" A "] = " A " ∧ ("A" : String) ≠ " A " :=
  ⟨rfl, rfl, by decide⟩

/-- Claim C3 (amended): the markdown concatenated by the page loop equals
the page markdowns (absent text as `""`) joined with exactly `n-1`
separators, never leading or trailing; the markdown the extractor returns
is the TRIM of that join; the spec's 3-page example joins as stated. -/
theorem c3_page_join_amended (ext : Bool) (pages : List OCRPage) :
    (pagesFold ext pages).1 = sepJoin (pages.map fun p => p.markdown.getD "") ∧
    (extractResult ext pages).markdown =
      jsTrimS (sepJoin (pages.map fun p => p.markdown.getD "")) ∧
    sepJoin ["A", "B", "C"] = "A\n\n---\n\nB\n\n---\n\nC" := by
  refine ⟨pagesFold_markdown ext pages, ?_, rfl⟩
  show jsTrimS (pagesFold ext pages).1 = _
  rw [pagesFold_markdown ext pages]

/-- Witness tying C3 (amended) to the extractor output on the spec's 3-page
example: the returned markdown is the (here trim-invariant) join. -/
theorem c3_page_join_amended_witness :
    (performMistralOCR "k" false ⟨Except.ok "id", Except.ok "u",
        Except.ok (some [⟨some "A", none⟩, ⟨some "B", none⟩, ⟨some "C", none⟩])⟩).1 =
      Except.ok { markdown := "A\n\n---\n\nB\n\n---\n\nC", images := [] } ∧
    (pagesFold false [⟨some "A", none⟩, ⟨some "B", none⟩, ⟨some "C", none⟩]).1 =
      sepJoin ["A", "B", "C"] := by
  refine ⟨rfl, ?_⟩
  have h := (c3_page_join_amended false
    [⟨some "A", none⟩, ⟨some "B", none⟩, ⟨some "C", none⟩]).1
  rw [h]
  rfl

/-- Counterexample to C2 as stated: an OCR response whose only page has
empty markdown — `performMistralOCR` SUCCEEDS and returns an `OCRResult`
with empty trimmed markdown instead of failing (`main.ts:224` has no
emptiness check). -/
theorem c2_extract_empty_ok_cex :
    (performMistralOCR "k" false ⟨Except.ok "id", Except.ok "u",
        Except.ok (some [⟨some "", none⟩])⟩).1 =
      Except.ok { markdown := "", images := [] } := rfl

/-- Claim C2 (amended): `performMistralOCR` itself performs no emptiness
check — it returns the trimmed markdown even when empty; the empty-result
failure lives in the caller `processImage`, whose gate raises
`"Empty OCR Result"` exactly when the trimmed concatenated markdown is
empty, so the formatting stage never runs on empty OCR text. -/
theorem c2_empty_gate_amended (key u s : String) (hk : key ≠ "") (hu : u ≠ "")
    (ext : Bool) (pages : List OCRPage) :
    (performMistralOCR key ext ⟨Except.ok u, Except.ok s, Except.ok (some pages)⟩).1 =
      Except.ok (extractResult ext pages) ∧
    (processImageGate (extractResult ext pages) = Except.error "Empty OCR Result" ↔
      jsTrimS (pagesFold ext pages).1 = "") := by
  constructor
  · simp [performMistralOCR, hk, hu]
  · by_cases hmd : jsTrimS (pagesFold ext pages).1 = "" <;>
      simp [processImageGate, extractResult, hmd]

/-- Witness for C2 (amended): concrete empty-markdown response where the
extractor succeeds and the pipeline gate fails. -/
theorem c2_empty_gate_amended_witness :
    (("k" : String) ≠ "" ∧ ("id" : String) ≠ "") ∧
    ((performMistralOCR "k" false ⟨Except.ok "id", Except.ok "u",
        Except.ok (some [⟨some "", none⟩])⟩).1 =
      Except.ok (extractResult false [⟨some "", none⟩]) ∧
     (processImageGate (extractResult false [⟨some "", none⟩]) =
        Except.error "Empty OCR Result" ↔
      jsTrimS (pagesFold false [⟨some "", none⟩]).1 = "")) :=
  ⟨⟨by decide, by decide⟩,
    c2_empty_gate_amended "k" "id" "u" (by decide) (by decide) false [⟨some "", none⟩]⟩

/-! ## Claim C10 — extracted image payloads -/

theorem assocSet_mem {l : List (String × String)} {k v : String} {kv : String × String}
    (h : kv ∈ assocSet l k v) : kv ∈ l ∨ kv = (k, v) := by
  induction l with
  | nil =>
    right
    simpa [assocSet] using h
  | cons p r ih =>
    rw [assocSet] at h
    by_cases hp : p.1 = k
    · rw [if_pos hp] at h
      rcases List.mem_cons.mp h with h | h
      · right; exact h
      · left; exact List.mem_cons_of_mem _ h
    · rw [if_neg hp] at h
      rcases List.mem_cons.mp h with h | h
      · left; exact h ▸ List.mem_cons_self _ _
      · rcases ih h with h' | h'
        · left; exact List.mem_cons_of_mem _ h'
        · right; exact h'

theorem addImage_values {imgs : List (String × String)} {im : OCRImage}
    (h : ∀ kv ∈ imgs, kv.2 ≠ "") : ∀ kv ∈ addImage imgs im, kv.2 ≠ "" := by
  intro kv hkv
  rw [addImage] at hkv
  by_cases hb : effectivePayload im.imageBase64 = []
  · rw [if_pos hb] at hkv
    exact h kv hkv
  · rw [if_neg hb] at hkv
    rcases assocSet_mem hkv with h' | h'
    · exact h kv h'
    · rw [h']
      intro hc
      exact hb (congrArg String.data hc)

theorem foldl_addImage_values :
    ∀ (ims : List OCRImage) (imgs : List (String × String)),
      (∀ kv ∈ imgs, kv.2 ≠ "") → ∀ kv ∈ ims.foldl addImage imgs, kv.2 ≠ "" := by
  intro ims
  induction ims with
  | nil => intro imgs h; exact h
  | cons im rest ih =>
    intro imgs h
    exact ih (addImage imgs im) (addImage_values h)

theorem pageImagesStep_values {ext : Bool} {imgs : List (String × String)} {pg : OCRPage}
    (h : ∀ kv ∈ imgs, kv.2 ≠ "") : ∀ kv ∈ pageImagesStep ext imgs pg, kv.2 ≠ "" := by
  rw [pageImagesStep]
  split
  · exact foldl_addImage_values _ imgs h
  · exact h

theorem pagesFold_values (ext : Bool) :
    ∀ (pages : List OCRPage) (acc : String × List (String × String) × Nat),
      (∀ kv ∈ acc.2.1, kv.2 ≠ "") →
      ∀ kv ∈ (pages.foldl (pagesFoldStep ext) acc).2.1, kv.2 ≠ "" := by
  intro pages
  induction pages with
  | nil => intro acc h; exact h
  | cons pg rest ih =>
    intro acc h
    exact ih _ (pageImagesStep_values h)

theorem afterComma_none {s : List Char} (h : ',' ∉ s) : afterComma s = none := by
  induction s with
  | nil => rfl
  | cons c r ih =>
    rw [afterComma, if_neg (by rintro rfl; exact h (List.mem_cons_self _ _))]
    exact ih fun hc => h (List.mem_cons_of_mem _ hc)

/-- Claim C10: every value stored in the images mapping produced by the
page loop is a non-empty base64 payload; an image whose payload is absent,
empty, or a `data:` URL with no comma contributes no entry at all (the
stripping `split(",")[1]` of a comma-less string is falsy). -/
theorem c10_image_values (ext : Bool) (pages : List OCRPage) :
    (∀ kv ∈ (pagesFold ext pages).2, kv.2 ≠ "") ∧
    (∀ (imgs : List (String × String)) (im : OCRImage),
      effectivePayload im.imageBase64 = [] → addImage imgs im = imgs) ∧
    (∀ im : OCRImage, im.imageBase64 = none ∨ im.imageBase64 = some "" →
      effectivePayload im.imageBase64 = []) ∧
    (∀ s : List Char, ',' ∉ s → headMatch "data:".data s = true →
      effectivePayload (some ⟨s⟩) = []) := by
  refine ⟨?_, ?_, ?_, ?_⟩
  · exact pagesFold_values ext pages ("", [], 0) (by intro kv h; cases h)
  · intro imgs im hb
    rw [addImage, if_pos hb]
  · intro im h
    rcases h with h | h <;> rw [h] <;> rfl
  · intro s hs hd
    show (if headMatch "data:".data s then jsSplitSecond s else s) = []
    rw [if_pos hd, jsSplitSecond, afterComma_none hs]

/-- Witness for C10 at a concrete page: the stored entries are the
non-falsy, prefix-stripped payloads, and they are non-empty. -/
theorem c10_image_values_witness :
    (("im1", "AAA") ∈ (pagesFold true [⟨some "x",
        some [⟨"im1", some "data:image/png;base64,AAA"⟩, ⟨"im2", some "data:nope"⟩,
          ⟨"im3", none⟩, ⟨"im4", some ""⟩]⟩]).2) ∧
    (("im1", "AAA") : String × String).2 ≠ "" :=
  ⟨by decide, (c10_image_values true [⟨some "x",
      some [⟨"im1", some "data:image/png;base64,AAA"⟩, ⟨"im2", some "data:nope"⟩,
        ⟨"im3", none⟩, ⟨"im4", some ""⟩]⟩]).1 ("im1", "AAA") (by decide)⟩

/-! ## Claim C6 — partial image persistence -/

theorem assocFind_assocSet_self (l : List (String × String)) (k v : String) :
    assocFind (assocSet l k v) k = some v := by
  induction l with
  | nil => simp [assocSet, assocFind]
  | cons p r ih =>
    rw [assocSet]
    by_cases hp : p.1 = k
    · rw [if_pos hp, assocFind, if_pos rfl]
    · rw [if_neg hp, assocFind, if_neg hp]
      exact ih

theorem assocFind_assocSet_ne {l : List (String × String)} {k k' v : String} (h : k' ≠ k) :
    assocFind (assocSet l k v) k' = assocFind l k' := by
  induction l with
  | nil =>
    show assocFind [(k, v)] k' = none
    rw [assocFind, if_neg (fun hc => h hc.symm)]
    rfl
  | cons p r ih =>
    rw [assocSet]
    by_cases hp : p.1 = k
    · rw [if_pos hp, assocFind, if_neg (fun hc => h hc.symm), assocFind,
        if_neg (fun hc => h (hp ▸ hc).symm)]
    · rw [if_neg hp, assocFind, assocFind]
      by_cases hpk : p.1 = k'
      · rw [if_pos hpk, if_pos hpk]
      · rw [if_neg hpk, if_neg hpk]
        exact ih

theorem assocSet_fresh {l : List (String × String)} {k : String} (v : String)
    (h : ∀ p ∈ l, p.1 ≠ k) : assocSet l k v = l ++ [(k, v)] := by
  induction l with
  | nil => rfl
  | cons p r ih =>
    rw [assocSet, if_neg (h p (List.mem_cons_self _ _)),
      ih fun q hq => h q (List.mem_cons_of_mem _ hq)]
    rfl

theorem path_inj {tf a b : String} (h : tf ++ "/" ++ a = tf ++ "/" ++ b) : a = b := by
  have hd := congrArg String.data h
  rw [data_append, data_append, data_append, data_append,
    List.append_assoc, List.append_assoc] at hd
  exact String.data_inj (List.append_cancel_left (List.append_cancel_left hd))

theorem saveFold_saved (tf : String) (fails : String → Bool) :
    ∀ (imgs sp vlt : List (String × String)),
      (∀ p ∈ imgs, ∀ q ∈ sp, q.1 ≠ p.1) → (imgs.map Prod.fst).Nodup →
      (imgs.foldl (saveStep tf fails) (sp, vlt)).1 =
        sp ++ (imgs.filter fun p => !fails (tf ++ "/" ++ p.1)).map
          (fun p => (p.1, tf ++ "/" ++ p.1)) := by
  intro imgs
  induction imgs with
  | nil => intro sp vlt _ _; simp
  | cons q rest ih =>
    intro sp vlt hfresh hnd
    rw [List.map_cons, List.nodup_cons] at hnd
    rw [List.foldl_cons]
    by_cases hf : fails (tf ++ "/" ++ q.1)
    · rw [show saveStep tf fails (sp, vlt) q = (sp, vlt) by rw [saveStep]; simp [hf]]
      rw [ih sp vlt (fun p hp => hfresh p (List.mem_cons_of_mem _ hp)) hnd.2]
      simp [List.filter_cons, hf]
    · rw [show saveStep tf fails (sp, vlt) q =
        (assocSet sp q.1 (tf ++ "/" ++ q.1), assocSet vlt (tf ++ "/" ++ q.1) q.2) by
          rw [saveStep]; simp [hf]]
      rw [assocSet_fresh _ (fun p hp => hfresh q (List.mem_cons_self _ _) p hp)]
      rw [ih _ _ ?_ hnd.2]
      · simp [List.filter_cons, hf]
      · intro p hp q' hq'
        rcases List.mem_append.mp hq' with h' | h'
        · exact hfresh p (List.mem_cons_of_mem _ hp) q' h'
        · rcases List.mem_singleton.mp h' with rfl
          intro hc
          exact hnd.1 (hc ▸ List.mem_map_of_mem Prod.fst hp)

theorem saveFold_vault_ne (tf : String) (fails : String → Bool) :
    ∀ (imgs sp vlt : List (String × String)) (k : String),
      (∀ r ∈ imgs, tf ++ "/" ++ r.1 ≠ k) →
      assocFind (imgs.foldl (saveStep tf fails) (sp, vlt)).2 k = assocFind vlt k := by
  intro imgs
  induction imgs with
  | nil => intro sp vlt k _; rfl
  | cons q rest ih =>
    intro sp vlt k hk
    rw [List.foldl_cons, saveStep]
    by_cases hf : fails (tf ++ "/" ++ q.1)
    · simp only [if_pos hf]
      exact ih sp vlt k fun r hr => hk r (List.mem_cons_of_mem _ hr)
    · simp only [if_neg hf]
      rw [ih _ _ k fun r hr => hk r (List.mem_cons_of_mem _ hr),
        assocFind_assocSet_ne fun hc => hk q (List.mem_cons_self _ _) hc.symm]

theorem saveFold_vault (tf : String) (fails : String → Bool) :
    ∀ (imgs sp vlt : List (String × String)) (p : String × String),
      p ∈ imgs → (imgs.map Prod.fst).Nodup → fails (tf ++ "/" ++ p.1) = false →
      assocFind (imgs.foldl (saveStep tf fails) (sp, vlt)).2 (tf ++ "/" ++ p.1) =
        some p.2 := by
  intro imgs
  induction imgs with
  | nil => intro sp vlt p hp; cases hp
  | cons q rest ih =>
    intro sp vlt p hp hnd hpf
    rw [List.map_cons, List.nodup_cons] at hnd
    rw [List.foldl_cons]
    rcases List.mem_cons.mp hp with rfl | hp'
    · rw [show saveStep tf fails (sp, vlt) p =
        (assocSet sp p.1 (tf ++ "/" ++ p.1), assocSet vlt (tf ++ "/" ++ p.1) p.2) by
          rw [saveStep]; simp [hpf]]
      rw [saveFold_vault_ne tf fails rest _ _ _ ?_, assocFind_assocSet_self]
      intro r hr hc
      exact hnd.1 (path_inj hc ▸ List.mem_map_of_mem Prod.fst hr)
    · exact ih _ _ p hp' hnd.2 hpf

/-- Claim C6: partial-failure semantics of image persistence.  For any image
map with distinct ids and any per-image failure pattern: the returned
mapping is exactly the successfully written subset, in order, each id
mapped to `targetFolder/id` where `targetFolder` is `basePath/subfolder`
when a subfolder is configured and `basePath` otherwise; a failing image is
skipped while all remaining images are still attempted; and each
successfully written image's bytes are stored at its path in the vault
(overwriting or creating — both are the same association-list update).
Totality of the function is the no-exception guarantee. -/
theorem c6_partial_persistence (sub basePath : String) (images : List (String × String))
    (fails : String → Bool) (vault : List (String × String))
    (hnd : (images.map Prod.fst).Nodup) :
    (saveOCRImages sub images basePath fails vault).1 =
      (images.filter fun p =>
          !fails ((if sub ≠ "" then basePath ++ "/" ++ sub else basePath) ++ "/" ++ p.1)).map
        (fun p => (p.1, (if sub ≠ "" then basePath ++ "/" ++ sub else basePath) ++ "/" ++ p.1)) ∧
    (∀ p ∈ images,
      fails ((if sub ≠ "" then basePath ++ "/" ++ sub else basePath) ++ "/" ++ p.1) = false →
      assocFind (saveOCRImages sub images basePath fails vault).2
        ((if sub ≠ "" then basePath ++ "/" ++ sub else basePath) ++ "/" ++ p.1) =
        some p.2) := by
  by_cases he : images = []
  · subst he
    exact ⟨rfl, fun p hp => absurd hp (List.not_mem_nil p)⟩
  · constructor
    · rw [show saveOCRImages sub images basePath fails vault =
        images.foldl (saveStep (if sub ≠ "" then basePath ++ "/" ++ sub else basePath) fails)
          ([], vault) by rw [saveOCRImages, if_neg he]]
      exact saveFold_saved _ fails images [] vault (fun p _ q hq => absurd hq (by simp)) hnd
    · intro p hp hpf
      rw [show saveOCRImages sub images basePath fails vault =
        images.foldl (saveStep (if sub ≠ "" then basePath ++ "/" ++ sub else basePath) fails)
          ([], vault) by rw [saveOCRImages, if_neg he]]
      exact saveFold_vault _ fails images [] vault p hp hnd hpf

/-- Witness for C6: three images of which the second fails — the result
contains exactly images 1 and 3 and their bytes are in the vault. -/
theorem c6_partial_persistence_witness :
    ((([("a", "D1"), ("b", "D2"), ("c", "D3")] : List (String × String)).map
        Prod.fst).Nodup) ∧
    (saveOCRImages "assets" [("a", "D1"), ("b", "D2"), ("c", "D3")] "base"
        (fun s => s = "base/assets/b") []).1 =
      [("a", "base/assets/a"), ("c", "base/assets/c")] ∧
    assocFind (saveOCRImages "assets" [("a", "D1"), ("b", "D2"), ("c", "D3")] "base"
        (fun s => s = "base/assets/b") []).2 "base/assets/c" = some "D3" := by
  refine ⟨by decide, ?_, ?_⟩
  · have h := (c6_partial_persistence "assets" "base" [("a", "D1"), ("b", "D2"), ("c", "D3")]
      (fun s => s = "base/assets/b") [] (by decide)).1
    rw [h]
    decide
  · have h := (c6_partial_persistence "assets" "base" [("a", "D1"), ("b", "D2"), ("c", "D3")]
      (fun s => s = "base/assets/b") [] (by decide)).2
    have := h ("c", "D3") (by decide) (by decide)
    simpa using this

end AIOcr
